import Mathlib

/-!
Verification of the gpng PNG writer (src/gpng_src.cpp, src/gpng.h, src/main.cpp).

The C++ sources are shallowly embedded below: bytes are naturals < 256,
byte buffers are lists of naturals, machine-integer truncation is made
explicit with `% 2 ^ w`, and the out-of-bounds vector reads that
`Image::deflate_no_compression` performs when the raw scanline buffer is
empty are modelled by `Option` (a read past the end of the buffer yields
`none` for the whole computation, mirroring the undefined behaviour of
`std::vector::operator[]` out of range).
-/

namespace Gpng

/-- Embedding of push_to_buffer(buffer, &v, 2, false) for a uint16_t value on a
little-endian host: the two bytes of v, least significant first. -/
def le16 (n : Nat) : List Nat := [n % 256, n / 256 % 256]

/-- Embedding of push_to_buffer(buffer, &v, 4, true) for a 32-bit value: the four
bytes of v, most significant first (big-endian, as PNG requires). -/
def be32 (n : Nat) : List Nat :=
  [n / 2 ^ 24 % 256, n / 2 ^ 16 % 256, n / 2 ^ 8 % 256, n % 256]

/-- Embedding of one iteration of the inner loop of make_crc_table:
c = (c & 1) ? 0xedb88320 ^ (c >> 1) : (c >> 1). -/
def crcRound (c : Nat) : Nat :=
  if c &&& 1 = 1 then 0xedb88320 ^^^ (c >>> 1) else c >>> 1

/-- Embedding of crc_table[n]: n folded through 8 reflected polynomial-division
steps, exactly the value make_crc_table stores at index n. -/
def crc_table (n : Nat) : Nat := crcRound^[8] n

/-- Embedding of update_crc: fold each byte through
crc_table[(c ^ byte) & 0xff] ^ (c >> 8). -/
def update_crc (crc : Nat) (buf : List Nat) : Nat :=
  buf.foldl (fun c b => crc_table ((c ^^^ b) &&& 255) ^^^ (c >>> 8)) crc

/-- Embedding of get_crc: update_crc seeded with all ones, complemented at the
end. -/
def get_crc (buf : List Nat) : Nat := update_crc 0xffffffff buf ^^^ 0xffffffff

/-- Embedding of MOD_ADLER. -/
def MOD_ADLER : Nat := 65521

/-- Embedding of adler32: a starts at 1, b at 0, both reduced mod 65521 per
byte; the result is (b << 16) | a. -/
def adler32 (data : List Nat) : Nat :=
  let ab := data.foldl
    (fun (ab : Nat × Nat) d =>
      ((ab.1 + d) % MOD_ADLER, (ab.2 + (ab.1 + d) % MOD_ADLER) % MOD_ADLER))
    (1, 0)
  (ab.2 <<< 16) ||| ab.1

/-- Embedding of sum_to_31: the value to add to make number a multiple of 31,
with the wrap to 0 when the remainder is already 0. -/
def sum_to_31 (number : Nat) : Nat :=
  let ret := 31 - number % 31
  if ret = 31 then 0 else ret

/-- Embedding of gpng::Image: width, height, and the backing byte store
image = new uint8_t[w * h * 3], modelled as a total map from flat indices to
byte values. -/
structure Image where
  width : Nat
  height : Nat
  image : Nat → Nat

/-- Embedding of the flat index row * width * 3 + column * 3 + colour used by
Image::operator(). -/
def Image.idx (img : Image) (column row colour : Nat) : Nat :=
  row * img.width * 3 + column * 3 + colour

/-- Reading through Image::operator()(column, row, colour). -/
def Image.read (img : Image) (column row colour : Nat) : Nat :=
  img.image (img.idx column row colour)

/-- Writing through Image::operator()(column, row, colour); the stored value is
truncated to a byte, as assignment to a uint8_t cell does. -/
def Image.write (img : Image) (column row colour v : Nat) : Image :=
  { img with image := Function.update img.image (img.idx column row colour) (v % 256) }

/-- Embedding of one row of the scanline-building loop of
Image::deflate_no_compression: the filter-type byte 0x00 followed by, for each
column x, the R, G, B channel bytes of (x, y). -/
def rowBytes (img : Image) (y : Nat) : List Nat :=
  0x00 :: (List.range img.width).flatMap
    (fun x => [img.read x y 0, img.read x y 1, img.read x y 2])

/-- Embedding of uncompressed_buffer: rows 0 .. height-1, each rendered by
rowBytes. -/
def scanlines (img : Image) : List Nat :=
  (List.range img.height).flatMap (rowBytes img)

/-- Embedding of the constant block_size_limit. -/
def block_size_limit : Nat := 32768

/-- Embedding of int raw_length = height * (width * 3 + 1). -/
def raw_length (width height : Nat) : Nat := height * (width * 3 + 1)

/-- Embedding of int no_of_blocks = (raw_length + block_size_limit - 5 - 1) /
(block_size_limit - 5). -/
def no_of_blocks (raw_len : Nat) : Nat :=
  (raw_len + block_size_limit - 5 - 1) / (block_size_limit - 5)

/-- Embedding of int final_block_raw_length = raw_length % (block_size_limit - 5),
replaced by block_size_limit - 5 when the remainder is 0. -/
def final_block_raw_length (raw_len : Nat) : Nat :=
  if raw_len % (block_size_limit - 5) = 0 then block_size_limit - 5
  else raw_len % (block_size_limit - 5)

/-- Embedding of the DeflateStoredBlock entity of the data model: the final-flag
a block carries and its raw payload bytes. A block pushed by the loop over
i < no_of_blocks - 1 carries is_final = false, the block pushed after the loop
carries is_final = true. -/
structure DeflateStoredBlock where
  is_final : Bool
  raw_payload : List Nat
deriving DecidableEq

/-- Embedding of the payload-copying loop
for (j = 0; j < len; ++j) buffer.push_back(uncompressed_buffer[image_pos++]):
reads data[pos], data[pos+1], ..., data[pos+len-1]; an out-of-range read is
undefined behaviour in the source and yields none here. -/
def readSlice (data : List Nat) (pos : Nat) : Nat → Option (List Nat)
  | 0 => some []
  | len + 1 => do
    let b ← data[pos]?
    let rest ← readSlice data (pos + 1) len
    pure (b :: rest)

/-- Embedding of the loop for (i = 0; i < no_of_blocks - 1; ++i) of
Image::deflate_no_compression: k remaining non-final blocks, each consuming
block_size_limit - 5 payload bytes starting at the running position pos. -/
def fullBlocks (data : List Nat) (pos : Nat) : Nat → Option (List DeflateStoredBlock)
  | 0 => some []
  | k + 1 => do
    let payload ← readSlice data pos (block_size_limit - 5)
    let rest ← fullBlocks data (pos + (block_size_limit - 5)) k
    pure (⟨false, payload⟩ :: rest)

/-- Embedding of the block-splitting logic of Image::deflate_no_compression:
no_of_blocks - 1 non-final blocks followed by one final block of
final_block_raw_length payload bytes, taken from the raw buffer at the position
image_pos reached after the loop. -/
def deflateStoredBlocks (raw_len : Nat) (data : List Nat) :
    Option (List DeflateStoredBlock) := do
  let fulls ← fullBlocks data 0 (no_of_blocks raw_len - 1)
  let finalPayload ← readSlice data
    ((no_of_blocks raw_len - 1) * (block_size_limit - 5))
    (final_block_raw_length raw_len)
  pure (fulls ++ [⟨true, finalPayload⟩])

/-- Embedding of the header byte each block starts with: the loop pushes 0x00,
the final push site pushes 0x80. -/
def headerByte (is_final : Bool) : Nat := if is_final then 0x80 else 0x00

/-- Embedding of push_length = ~push_length on a uint16_t. -/
def not16 (n : Nat) : Nat := 65535 - n % 65536

/-- Serialization of one stored block exactly as Image::deflate_no_compression
pushes it: header byte, LEN as two little-endian bytes, NLEN = ~LEN as two
little-endian bytes, then the payload. The pushed uint16_t push_length equals
the payload length (the copy loop runs exactly push_length times), truncated to
16 bits as the int-to-uint16_t conversion does. -/
def serializeBlock (b : DeflateStoredBlock) : List Nat :=
  headerByte b.is_final ::
    (le16 (b.raw_payload.length % 65536) ++ le16 (not16 b.raw_payload.length)
      ++ b.raw_payload)

/-- Concatenation of the payloads of a block sequence, in emission order. -/
def concatPayloads (bs : List DeflateStoredBlock) : List Nat :=
  bs.flatMap DeflateStoredBlock.raw_payload

/-- Observer: the 16-bit LEN value transmitted by a serialized stored block,
decoded little-endian from its bytes 1 and 2. -/
def transmittedLEN (s : List Nat) : Nat := s.getD 1 0 + 256 * s.getD 2 0

/-- Observer: the 16-bit NLEN value transmitted by a serialized stored block,
decoded little-endian from its bytes 3 and 4. -/
def transmittedNLEN (s : List Nat) : Nat := s.getD 3 0 + 256 * s.getD 4 0

/-- Embedding of Image::deflate_no_compression as a whole: the bytes it appends
to the IDAT buffer, namely every block serialized in order followed by the
big-endian Adler-32 of the raw scanline bytes. -/
def deflate_no_compression (img : Image) : Option (List Nat) :=
  (deflateStoredBlocks (raw_length img.width img.height) (scanlines img)).map
    (fun bs => bs.flatMap serializeBlock ++ be32 (adler32 (scanlines img)))

/-- Embedding of uint8_t CMF = 0x78. -/
def CMF : Nat := 0x78

/-- Embedding of FLG = 0b11000000 followed by
FLG += sum_to_31(CMF * 256 + FLG). -/
def FLG : Nat := 0xC0 + sum_to_31 (CMF * 256 + 0xC0)

/-- Embedding of the 8-byte PNG signature. -/
def pngSignature : List Nat := [0x89, 0x50, 0x4E, 0x47, 0x0D, 0x0A, 0x1A, 0x0A]

/-- Embedding of ihdr_dat: the IHDR type tag, width and height as 4 big-endian
bytes each, then bit depth 8, colour type 2, compression 0, filter 0,
interlace 0. -/
def ihdrData (w h : Nat) : List Nat :=
  [0x49, 0x48, 0x44, 0x52] ++ be32 w ++ be32 h ++ [0x08, 0x02, 0x00, 0x00, 0x00]

/-- Embedding of idat_dat: the IDAT type tag, the zlib header bytes CMF and FLG,
then everything deflate_no_compression appends. -/
def idatData (img : Image) : Option (List Nat) :=
  (deflate_no_compression img).map
    (fun d => [0x49, 0x44, 0x41, 0x54] ++ ([CMF, FLG] ++ d))

/-- Embedding of Image::output_png: the byte sequence accumulated in main_buffer
and written to the file — signature, IHDR length/type/data/CRC, IDAT
length/type/data/CRC (the length field is idat_dat.size() - 4), and the literal
IEND chunk. -/
def output_png (img : Image) : Option (List Nat) :=
  (idatData img).map (fun idat =>
    pngSignature
      ++ [0x00, 0x00, 0x00, 0x0D]
      ++ ihdrData img.width img.height
      ++ be32 (get_crc (ihdrData img.width img.height))
      ++ be32 (idat.length - 4)
      ++ idat
      ++ be32 (get_crc idat)
      ++ [0x00, 0x00, 0x00, 0x00, 0x49, 0x45, 0x4E, 0x44, 0xAE, 0x42, 0x60, 0x82])

/-- Spec-side description of PNG chunk framing (spec §3, §4.5): length of the
payload as 4 big-endian bytes, the type tag, the payload, and the CRC-32 of
type ++ payload as 4 big-endian bytes. Used to compare output_png against the
chunk framing the specification describes. -/
def chunk (ty payload : List Nat) : List Nat :=
  be32 payload.length ++ ty ++ payload ++ be32 (get_crc (ty ++ payload))

/-- Embedding of the uint8_t wrap-around of the int expression 255 - x - y that
main.cpp stores into the green channel. -/
def wrap8 (n : Int) : Nat := (n % 256).toNat

/-- Embedding of the pixel-filling loops of main.cpp: channel 0 := 0,
channel 1 := 255 - x - y (as a byte), channel 2 := 0, over all columns and
rows, starting from a fresh buffer. -/
def testImage (w h : Nat) : Image :=
  (List.range h).foldl
    (fun img y =>
      (List.range w).foldl
        (fun img x =>
          ((img.write x y 0 0).write x y 1 (wrap8 (255 - (x : Int) - (y : Int)))).write x y 2 0)
        img)
    { width := w, height := h, image := fun _ => 0 }

/-- Embedding of main(): the assert on width and height runs before the Image
buffer is allocated; if it fails the program aborts and produces no PNG bytes,
otherwise the test image is built and output_png produces the file bytes. -/
def main_run (w h : Nat) : Option (List Nat) :=
  if w ≤ 65535 ∧ h ≤ 65535 then output_png (testImage w h) else none

/-- Concrete 1-by-1 all-black image used as an evaluation input. -/
def img11 : Image := { width := 1, height := 1, image := fun _ => 0 }

/-- Concrete width-5, height-0 image (empty raster) used as an evaluation
input. -/
def img50 : Image := { width := 5, height := 0, image := fun _ => 0 }

/-! Helper lemmas about the splitter. -/

theorem readSlice_some (data : List Nat) :
    ∀ (len pos : Nat), pos + len ≤ data.length →
      readSlice data pos len = some ((data.drop pos).take len) := by
  intro len
  induction len with
  | zero => intro pos h; simp [readSlice]
  | succ n ih =>
    intro pos h
    have hpos : pos < data.length := by omega
    have hget : data[pos]? = some data[pos] := List.getElem?_eq_getElem hpos
    have hrec := ih (pos + 1) (by omega)
    simp [readSlice, hget, hrec]
    rw [List.drop_eq_getElem_cons hpos, List.take_succ_cons]

theorem readSlice_none (data : List Nat) :
    ∀ (len pos : Nat), 0 < len → data.length < pos + len →
      readSlice data pos len = none := by
  intro len
  induction len with
  | zero => omega
  | succ n ih =>
    intro pos _ h
    by_cases hpos : pos < data.length
    · have hn : 0 < n := by omega
      have hget : data[pos]? = some data[pos] := List.getElem?_eq_getElem hpos
      have hrec := ih (pos + 1) hn (by omega)
      simp [readSlice, hget, hrec]
    · have hget : data[pos]? = none := by
        rw [List.getElem?_eq_none_iff]
        omega
      simp [readSlice, hget]

theorem fullBlocks_some (data : List Nat) :
    ∀ (k pos : Nat), pos + k * (block_size_limit - 5) ≤ data.length →
      fullBlocks data pos k =
        some ((List.range k).map (fun i =>
          ⟨false, (data.drop (pos + i * (block_size_limit - 5))).take
            (block_size_limit - 5)⟩)) := by
  intro k
  induction k with
  | zero => intro pos h; simp [fullBlocks]
  | succ n ih =>
    intro pos h
    have hC : pos + (block_size_limit - 5) ≤ data.length := by
      have : 1 * (block_size_limit - 5) ≤ (n + 1) * (block_size_limit - 5) :=
        Nat.mul_le_mul_right _ (by omega)
      omega
    have hslice := readSlice_some data (block_size_limit - 5) pos hC
    have hrec := ih (pos + (block_size_limit - 5)) (by
      have he : (pos + (block_size_limit - 5)) + n * (block_size_limit - 5)
          = pos + (n + 1) * (block_size_limit - 5) := by ring
      omega)
    rw [List.range_succ_eq_map]
    simp only [fullBlocks, hslice, hrec, Option.bind_eq_bind, Option.some_bind,
      List.map_cons, List.map_map]
    refine congrArg some ?_
    refine congrArg₂ List.cons (by simp) ?_
    refine List.map_congr_left ?_
    intro a _
    have he : pos + (block_size_limit - 5) + a * (block_size_limit - 5)
        = pos + (Nat.succ a) * (block_size_limit - 5) := by
      simp [Nat.succ_eq_add_one]; ring
    simp [Function.comp, he]

/-- Closed-form description of the block list the splitter produces on a
non-empty buffer; deflate_eq below proves the splitter meets it. -/
def blocksSpec (data : List Nat) : List DeflateStoredBlock :=
  ((List.range (no_of_blocks data.length - 1)).map (fun i =>
    ⟨false, (data.drop (i * (block_size_limit - 5))).take (block_size_limit - 5)⟩))
  ++ [⟨true, (data.drop ((no_of_blocks data.length - 1) * (block_size_limit - 5))).take
        (final_block_raw_length data.length)⟩]

theorem final_pos_add_len (R : Nat) (h : 0 < R) :
    (no_of_blocks R - 1) * (block_size_limit - 5) + final_block_raw_length R = R := by
  unfold no_of_blocks final_block_raw_length block_size_limit
  by_cases hm : R % (32768 - 5) = 0 <;> simp [hm] <;> omega

theorem final_len_pos (R : Nat) : 0 < final_block_raw_length R := by
  unfold final_block_raw_length block_size_limit
  by_cases hm : R % (32768 - 5) = 0 <;> simp [hm] <;> omega

theorem final_len_le (R : Nat) :
    final_block_raw_length R ≤ block_size_limit - 5 := by
  unfold final_block_raw_length block_size_limit
  by_cases hm : R % (32768 - 5) = 0 <;> simp [hm] <;> omega

theorem deflate_eq (data : List Nat) (hne : data ≠ []) :
    deflateStoredBlocks data.length data = some (blocksSpec data) := by
  have hR : 0 < data.length := List.length_pos.mpr hne
  have hpos := final_pos_add_len data.length hR
  have hfull : (no_of_blocks data.length - 1) * (block_size_limit - 5) ≤ data.length := by
    omega
  have hfb := fullBlocks_some data (no_of_blocks data.length - 1) 0 (by omega)
  have hfinal := readSlice_some data (final_block_raw_length data.length)
    ((no_of_blocks data.length - 1) * (block_size_limit - 5)) (by omega)
  simp only [deflateStoredBlocks, hfb, hfinal, Option.bind_eq_bind,
    Option.some_bind, blocksSpec]
  simp [Nat.zero_add]

theorem deflate_nil : deflateStoredBlocks 0 [] = none := by
  have hfb := fullBlocks_some [] 0 0 (by simp)
  have hnum : no_of_blocks 0 - 1 = 0 := by decide
  have hfin : readSlice [] 0 (final_block_raw_length 0) = none :=
    readSlice_none [] (final_block_raw_length 0) 0
      (final_len_pos 0) (by simpa using final_len_pos 0)
  simp only [deflateStoredBlocks, hnum]
  simp only [hnum] at hfb
  simp [hfb, hfin]

theorem blocksSpec_length (data : List Nat) (hne : data ≠ []) :
    (blocksSpec data).length = no_of_blocks data.length := by
  have hR : 0 < data.length := List.length_pos.mpr hne
  have hn : 0 < no_of_blocks data.length := by
    unfold no_of_blocks block_size_limit
    omega
  simp [blocksSpec]
  omega

theorem take_concat_range (data : List Nat) (C : Nat) :
    ∀ (k pos : Nat),
      ((List.range k).map (fun i => (data.drop (pos + i * C)).take C)).flatten
        = (data.drop pos).take (k * C) := by
  intro k
  induction k with
  | zero => intro pos; simp
  | succ n ih =>
    intro pos
    rw [List.range_succ_eq_map, List.map_cons, List.map_map, List.flatten_cons]
    have hmap : (List.range n).map ((fun i => (data.drop (pos + i * C)).take C) ∘ Nat.succ)
        = (List.range n).map (fun i => (data.drop ((pos + C) + i * C)).take C) := by
      refine List.map_congr_left ?_
      intro a _
      have he : pos + (Nat.succ a) * C = (pos + C) + a * C := by
        simp [Nat.succ_eq_add_one]; ring
      simp [Function.comp, he]
    rw [hmap, ih (pos + C)]
    have h1 : (n + 1) * C = C + n * C := by ring
    rw [h1, List.take_add, List.drop_drop]
    simp

theorem concat_blocksSpec (data : List Nat) (hne : data ≠ []) :
    concatPayloads (blocksSpec data) = data := by
  have hR : 0 < data.length := List.length_pos.mpr hne
  have hpos := final_pos_add_len data.length hR
  unfold concatPayloads blocksSpec
  rw [List.flatMap_append, List.flatMap_singleton, List.flatMap_map]
  have hfirst : (List.range (no_of_blocks data.length - 1)).flatMap
      (fun i => (data.drop (i * (block_size_limit - 5))).take (block_size_limit - 5))
      = (data.drop 0).take ((no_of_blocks data.length - 1) * (block_size_limit - 5)) := by
    rw [List.flatMap_def]
    have := take_concat_range data (block_size_limit - 5) (no_of_blocks data.length - 1) 0
    simpa using this
  simp only [hfirst, List.drop_zero]
  have hlast : (data.drop ((no_of_blocks data.length - 1) * (block_size_limit - 5))).take
      (final_block_raw_length data.length)
      = data.drop ((no_of_blocks data.length - 1) * (block_size_limit - 5)) := by
    apply List.take_of_length_le
    simp
    omega
  rw [hlast, List.take_append_drop]

theorem xor_two_pow_sub_one (w : Nat) :
    ∀ n, n < 2 ^ w → n ^^^ (2 ^ w - 1) = 2 ^ w - 1 - n := by
  induction w with
  | zero =>
    intro n hn
    interval_cases n
    rfl
  | succ w ih =>
    intro n hn
    have hp : 0 < 2 ^ w := Nat.pos_pow_of_pos w (by norm_num)
    have h2 : (2 : Nat) ^ (w + 1) = 2 * 2 ^ w := by ring
    have hdiv : (n ^^^ (2 ^ (w + 1) - 1)) / 2 = n / 2 ^^^ (2 ^ w - 1) := by
      rw [Nat.xor_div_two]
      congr 1
      omega
    have hmod : (n ^^^ (2 ^ (w + 1) - 1)) % 2 = (n + (2 ^ (w + 1) - 1)) % 2 :=
      Nat.xor_mod_two_eq
    have hih : n / 2 ^^^ (2 ^ w - 1) = 2 ^ w - 1 - n / 2 := ih (n / 2) (by omega)
    have hfull := Nat.div_add_mod (n ^^^ (2 ^ (w + 1) - 1)) 2
    omega

/-! Helper lemmas about scanline extraction. -/

theorem flatMap_range_length (f : Nat → List Nat) (L : Nat) (hL : ∀ y, (f y).length = L) :
    ∀ h : Nat, ((List.range h).flatMap f).length = h * L := by
  intro h
  induction h with
  | zero => simp
  | succ n ih =>
    rw [List.range_succ, List.flatMap_append, List.length_append, ih,
      List.flatMap_singleton, hL]
    ring

theorem flatMap_range_getElem (f : Nat → List Nat) (L : Nat) (hL : ∀ y, (f y).length = L) :
    ∀ h y j : Nat, y < h → j < L →
      ((List.range h).flatMap f)[y * L + j]? = (f y)[j]? := by
  intro h
  induction h with
  | zero => intro y j hy hj; omega
  | succ n ih =>
    intro y j hy hj
    rw [List.range_succ, List.flatMap_append]
    rcases Nat.lt_or_ge y n with hy2 | hy2
    · rw [List.getElem?_append_left]
      · exact ih y j hy2 hj
      · rw [flatMap_range_length f L hL n]
        have hmul : (y + 1) * L ≤ n * L := Nat.mul_le_mul_right L (by omega)
        have he : (y + 1) * L = y * L + L := by ring
        omega
    · have hyn : y = n := by omega
      subst hyn
      have hlen : ((List.range y).flatMap f).length = y * L := flatMap_range_length f L hL y
      rw [List.getElem?_append_right (by rw [hlen]; omega)]
      rw [hlen]
      have he : y * L + j - y * L = j := by omega
      rw [he, List.flatMap_singleton]

theorem rowBytes_length (img : Image) (y : Nat) :
    (rowBytes img y).length = img.width * 3 + 1 := by
  unfold rowBytes
  rw [List.length_cons, flatMap_range_length _ 3 (fun x => by simp)]

theorem scanlines_length (img : Image) :
    (scanlines img).length = raw_length img.width img.height := by
  unfold scanlines raw_length
  rw [flatMap_range_length _ (img.width * 3 + 1) (rowBytes_length img)]

/-! Helper lemma for pixel-index injectivity. -/

theorem idx_inj (img : Image) (c r ch c2 r2 ch2 : Nat)
    (hc : c < img.width) (hch : ch < 3) (hc2 : c2 < img.width) (hch2 : ch2 < 3)
    (h : img.idx c r ch = img.idx c2 r2 ch2) : c = c2 ∧ r = r2 ∧ ch = ch2 := by
  unfold Image.idx at h
  have h3 : img.width * 3 * r + (c * 3 + ch) = img.width * 3 * r2 + (c2 * 3 + ch2) := by
    have e1 : r * img.width * 3 + c * 3 + ch = img.width * 3 * r + (c * 3 + ch) := by ring
    have e2 : r2 * img.width * 3 + c2 * 3 + ch2 = img.width * 3 * r2 + (c2 * 3 + ch2) := by
      ring
    omega
  have hb1 : c * 3 + ch < img.width * 3 := by omega
  have hb2 : c2 * 3 + ch2 < img.width * 3 := by omega
  have hmod : (img.width * 3 * r + (c * 3 + ch)) % (img.width * 3)
      = (img.width * 3 * r2 + (c2 * 3 + ch2)) % (img.width * 3) := by rw [h3]
  rw [Nat.mul_add_mod, Nat.mul_add_mod, Nat.mod_eq_of_lt hb1, Nat.mod_eq_of_lt hb2] at hmod
  have hr : img.width * 3 * r = img.width * 3 * r2 := by omega
  have hw3 : 0 < img.width * 3 := by omega
  have hrr : r = r2 := Nat.eq_of_mul_eq_mul_left hw3 hr
  refine ⟨by omega, hrr, by omega⟩

/-! Claim theorems. -/

/-- C1 (counterexample): on a raw buffer of 40000 bytes the splitter emits 2
stored blocks, while the claim predicts ceil(40000 / 65535) = 1 block. -/
theorem C1_counterexample :
    (deflateStoredBlocks (List.replicate 40000 (0 : Nat)).length
        (List.replicate 40000 0)).map List.length = some 2
    ∧ (2 : Nat) ≠ (40000 + 65535 - 1) / 65535 := by
  constructor
  · have hne : List.replicate 40000 (0 : Nat) ≠ [] :=
      List.length_pos.mp (by rw [List.length_replicate]; norm_num)
    rw [deflate_eq _ hne, Option.map_some', blocksSpec_length _ hne]
    simp only [List.length_replicate]
    norm_num [no_of_blocks, block_size_limit]
  · decide

/-- C1 (amended): for every non-empty raw scanline byte sequence of length R,
the stored-block splitter succeeds and produces ceil(R / 32763) blocks; every
block except the last carries is_final = false and a payload of exactly 32763
bytes, and the last block carries is_final = true and a payload of R mod 32763
bytes, or 32763 bytes when R is a non-zero exact multiple of 32763, never
emitting a trailing empty block after a full one. -/
theorem C1_block_structure (data : List Nat) (hne : data ≠ []) :
    (deflateStoredBlocks data.length data).map List.length
      = some ((data.length + 32763 - 1) / 32763)
    ∧ (deflateStoredBlocks data.length data).map (fun bs =>
        bs.dropLast.all (fun b => !b.is_final && b.raw_payload.length == 32763))
      = some true
    ∧ (deflateStoredBlocks data.length data).map
        (fun bs => bs.getLast?.map DeflateStoredBlock.is_final)
      = some (some true)
    ∧ (deflateStoredBlocks data.length data).map
        (fun bs => bs.getLast?.map (fun b => b.raw_payload.length))
      = some (some (if data.length % 32763 = 0 then 32763 else data.length % 32763)) := by
  have hR : 0 < data.length := List.length_pos.mpr hne
  have hpos := final_pos_add_len data.length hR
  rw [deflate_eq data hne]
  refine ⟨?_, ?_, ?_, ?_⟩
  · rw [Option.map_some', blocksSpec_length data hne]
    refine congrArg some ?_
    unfold no_of_blocks block_size_limit
    omega
  · rw [Option.map_some']
    refine congrArg some ?_
    unfold blocksSpec
    rw [List.dropLast_concat, List.all_eq_true]
    intro b hb
    rcases List.mem_map.mp hb with ⟨i, hi, rfl⟩
    rw [List.mem_range] at hi
    have hlen : ((data.drop (i * (block_size_limit - 5))).take (block_size_limit - 5)).length
        = block_size_limit - 5 := by
      rw [List.length_take, List.length_drop]
      have h1 : (i + 1) * (block_size_limit - 5)
          ≤ (no_of_blocks data.length - 1) * (block_size_limit - 5) :=
        Nat.mul_le_mul_right _ (by omega)
      have h2 : (i + 1) * (block_size_limit - 5)
          = i * (block_size_limit - 5) + (block_size_limit - 5) := by ring
      omega
    simp only [hlen]
    decide
  · rw [Option.map_some']
    refine congrArg some ?_
    unfold blocksSpec
    rw [List.getLast?_concat]
    rfl
  · rw [Option.map_some']
    refine congrArg some ?_
    unfold blocksSpec
    rw [List.getLast?_concat]
    refine congrArg some ?_
    have hlen : ((data.drop ((no_of_blocks data.length - 1) * (block_size_limit - 5))).take
        (final_block_raw_length data.length)).length = final_block_raw_length data.length := by
      rw [List.length_take, List.length_drop]
      omega
    simp only [hlen]
    unfold final_block_raw_length block_size_limit
    norm_num

/-- C1 (witness): the amended block-structure theorem applied to the concrete
one-byte buffer. -/
theorem C1_witness :
    [(5 : Nat)] ≠ []
    ∧ ((deflateStoredBlocks (List.length [(5 : Nat)]) [5]).map List.length
        = some ((List.length [(5 : Nat)] + 32763 - 1) / 32763)
      ∧ (deflateStoredBlocks (List.length [(5 : Nat)]) [5]).map (fun bs =>
          bs.dropLast.all (fun b => !b.is_final && b.raw_payload.length == 32763))
        = some true
      ∧ (deflateStoredBlocks (List.length [(5 : Nat)]) [5]).map
          (fun bs => bs.getLast?.map DeflateStoredBlock.is_final)
        = some (some true)
      ∧ (deflateStoredBlocks (List.length [(5 : Nat)]) [5]).map
          (fun bs => bs.getLast?.map (fun b => b.raw_payload.length))
        = some (some (if List.length [(5 : Nat)] % 32763 = 0 then 32763
            else List.length [(5 : Nat)] % 32763))) :=
  ⟨by decide, C1_block_structure [5] (by decide)⟩

/-- C2 (counterexample): on the empty raster (height 0, so R = 0) the splitter
does not return a block list whose payloads concatenate to the raw bytes: the
code reads 32763 bytes past the end of the empty scanline buffer, modelled here
by the splitter returning none. -/
theorem C2_counterexample :
    (deflateStoredBlocks (raw_length img50.width img50.height)
        (scanlines img50)).map concatPayloads ≠ some (scanlines img50) := by
  have h1 : scanlines img50 = [] := rfl
  have h2 : raw_length img50.width img50.height = 0 := rfl
  rw [h1, h2, deflate_nil]
  simp

/-- C2 (amended): for every raster with at least one row, concatenating the
payloads of all emitted stored blocks, in emission order, yields exactly the
raw scanline bytes (filter byte plus pixel bytes per row) that were given to
the splitter. -/
theorem C2_reconstruction (img : Image) (hh : 0 < img.height) :
    (deflateStoredBlocks (raw_length img.width img.height)
        (scanlines img)).map concatPayloads = some (scanlines img) := by
  have hlen : raw_length img.width img.height = (scanlines img).length :=
    (scanlines_length img).symm
  have hne : scanlines img ≠ [] := by
    rw [← List.length_pos, scanlines_length]
    unfold raw_length
    exact Nat.mul_pos hh (by omega)
  rw [hlen, deflate_eq _ hne, Option.map_some', concat_blocksSpec _ hne]

/-- C2 (witness): the reconstruction theorem applied to the concrete 1-by-1
image. -/
theorem C2_witness :
    0 < img11.height
    ∧ (deflateStoredBlocks (raw_length img11.width img11.height)
        (scanlines img11)).map concatPayloads = some (scanlines img11) :=
  ⟨by decide, C2_reconstruction img11 (by decide)⟩

/-- C3 (evaluation at the failing input): on the 1-by-1 all-black raster the
only emitted block is final, yet its serialized header byte is 0x80, whose
bit 0 is 0 and bit 7 is 1 — the final-block flag lands in the most significant
bit, not in bit 0 as the claim (and RFC 1951) requires. -/
theorem C3_evaluation :
    deflateStoredBlocks (raw_length img11.width img11.height) (scanlines img11)
      = some [⟨true, [0, 0, 0, 0]⟩]
    ∧ (serializeBlock ⟨true, [0, 0, 0, 0]⟩).head? = some (headerByte true)
    ∧ headerByte true = 0x80
    ∧ Nat.testBit (headerByte true) 0 = false
    ∧ Nat.testBit (headerByte true) 7 = true := by
  refine ⟨by decide, by decide, by decide, by decide, by decide⟩

/-- C4 (evaluation at the failing input): when the raw scanline byte sequence
is empty, the code replaces the zero remainder by a full 32763-byte block
length and then reads 32763 bytes past the end of the empty buffer (undefined
behaviour, modelled by none), instead of emitting one final block of payload
length 0. -/
theorem C4_evaluation :
    final_block_raw_length 0 = 32763
    ∧ deflateStoredBlocks (raw_length img50.width img50.height) (scanlines img50) = none := by
  constructor
  · decide
  · have h1 : scanlines img50 = [] := rfl
    have h2 : raw_length img50.width img50.height = 0 := rfl
    rw [h1, h2]
    exact deflate_nil

/-- C5: every chunk output_png emits is framed exactly as the specification
describes: a 4-byte big-endian length field equal to the payload length and a
4-byte big-endian CRC field equal to CRC-32 of the type tag concatenated with
the payload, for IHDR, IDAT and IEND alike. -/
theorem C5_chunk_framing (img : Image) :
    output_png img = (deflate_no_compression img).map (fun d =>
      pngSignature
        ++ chunk [0x49, 0x48, 0x44, 0x52]
            (be32 img.width ++ be32 img.height ++ [0x08, 0x02, 0x00, 0x00, 0x00])
        ++ chunk [0x49, 0x44, 0x41, 0x54] ([CMF, FLG] ++ d)
        ++ chunk [0x49, 0x45, 0x4E, 0x44] []) := by
  unfold output_png idatData
  rw [Option.map_map]
  cases hdef : deflate_no_compression img with
  | none => rfl
  | some d =>
    rw [Option.map_some', Option.map_some']
    have h13 : be32 13 = [0x00, 0x00, 0x00, 0x0D] := by decide
    have hbe0 : be32 0 = [0x00, 0x00, 0x00, 0x00] := by decide
    have hIend : be32 (get_crc [0x49, 0x45, 0x4E, 0x44]) = [0xAE, 0x42, 0x60, 0x82] := by
      decide
    have hlw : (be32 img.width).length = 4 := rfl
    have hlh : (be32 img.height).length = 4 := rfl
    have hidatlen : (([0x49, 0x44, 0x41, 0x54] ++ ([CMF, FLG] ++ d)).length - 4)
        = ([CMF, FLG] ++ d).length := by
      simp
    unfold chunk
    simp only [Function.comp_apply]
    rw [hidatlen]
    simp [ihdrData, List.append_assoc, h13, hbe0, hIend, hlw, hlh]

/-- C6: the zlib header bytes emitted at the start of the IDAT payload are
CMF = 0x78 and an FLG byte with bits 6-7 equal to 11, FDICT bit 0, obtained by
adding an FCHECK adjustment d in [0, 30] that makes (CMF * 256 + FLG) a
multiple of 31. -/
theorem C6_zlib_header :
    CMF = 0x78 ∧ FLG / 64 = 3 ∧ Nat.testBit FLG 5 = false
    ∧ ∃ d, d ≤ 30 ∧ FLG = 0xC0 + d ∧ (CMF * 256 + FLG) % 31 = 0 :=
  ⟨rfl, by decide, by decide, 26, by decide, by decide, by decide⟩

theorem payload_le (data : List Nat) (bs : List DeflateStoredBlock) (b : DeflateStoredBlock)
    (hd : deflateStoredBlocks data.length data = some bs) (hb : b ∈ bs) :
    b.raw_payload.length ≤ 65535 := by
  by_cases hne : data = []
  · subst hne
    rw [show ([] : List Nat).length = 0 from rfl, deflate_nil] at hd
    cases hd
  · rw [deflate_eq data hne] at hd
    injection hd with hd
    subst hd
    unfold blocksSpec at hb
    rw [List.mem_append] at hb
    rcases hb with hb | hb
    · rcases List.mem_map.mp hb with ⟨i, _, rfl⟩
      refine le_trans (List.length_take_le _ _) ?_
      norm_num [block_size_limit]
    · rw [List.mem_singleton] at hb
      subst hb
      refine le_trans (List.length_take_le _ _) (le_trans (final_len_le _) ?_)
      norm_num [block_size_limit]

/-- C7: for every stored block the splitter emits, the NLEN value transmitted
in the serialized block is the 16-bit one's complement (xor with 0xFFFF) of the
transmitted LEN value. -/
theorem C7_len_nlen (data : List Nat) (bs : List DeflateStoredBlock) (b : DeflateStoredBlock)
    (hd : deflateStoredBlocks data.length data = some bs) (hb : b ∈ bs) :
    transmittedNLEN (serializeBlock b)
      = Nat.xor (transmittedLEN (serializeBlock b)) 65535 := by
  have hle := payload_le data bs b hd hb
  have hlt : b.raw_payload.length < 65536 := by omega
  have hmod : b.raw_payload.length % 65536 = b.raw_payload.length :=
    Nat.mod_eq_of_lt hlt
  have hLEN : transmittedLEN (serializeBlock b) = b.raw_payload.length := by
    simp [transmittedLEN, serializeBlock, le16, not16, List.getD, hmod]
    omega
  have hNLEN : transmittedNLEN (serializeBlock b) = 65535 - b.raw_payload.length := by
    simp [transmittedNLEN, serializeBlock, le16, not16, List.getD, hmod]
    omega
  have hx := xor_two_pow_sub_one 16 b.raw_payload.length (by norm_num; omega)
  norm_num at hx
  have hx2 : Nat.xor b.raw_payload.length 65535 = 65535 - b.raw_payload.length := hx
  rw [hLEN, hNLEN, hx2]

/-- C7 (witness): the LEN/NLEN complement theorem applied to the block the
splitter emits for the concrete three-byte buffer. -/
theorem C7_witness :
    deflateStoredBlocks (List.length [(1 : Nat), 2, 3]) [1, 2, 3]
      = some [⟨true, [1, 2, 3]⟩]
    ∧ (⟨true, [1, 2, 3]⟩ : DeflateStoredBlock) ∈ [(⟨true, [1, 2, 3]⟩ : DeflateStoredBlock)]
    ∧ transmittedNLEN (serializeBlock ⟨true, [1, 2, 3]⟩)
      = Nat.xor (transmittedLEN (serializeBlock ⟨true, [1, 2, 3]⟩)) 65535 :=
  ⟨by decide, by decide,
    C7_len_nlen [1, 2, 3] [⟨true, [1, 2, 3]⟩] ⟨true, [1, 2, 3]⟩ (by decide) (by decide)⟩

/-- C8: the raw byte sequence handed to the DEFLATE encoder has total length
height * (width * 3 + 1); the byte at position y * (width * 3 + 1) is the
filter-type byte 0x00 of row y, and the byte at position
y * (width * 3 + 1) + 1 + 3 * x + c is channel c (R = 0, G = 1, B = 2) of the
pixel in column x of row y. -/
theorem C8_scanline_layout (img : Image) (y x c : Nat)
    (hy : y < img.height) (hx : x < img.width) (hc : c < 3) :
    (scanlines img).length = img.height * (img.width * 3 + 1)
    ∧ (scanlines img)[y * (img.width * 3 + 1)]? = some 0x00
    ∧ (scanlines img)[y * (img.width * 3 + 1) + 1 + 3 * x + c]? = some (img.read x y c) := by
  refine ⟨?_, ?_, ?_⟩
  · rw [scanlines_length]
    rfl
  · have h0 := flatMap_range_getElem (rowBytes img) (img.width * 3 + 1)
      (rowBytes_length img) img.height y 0 hy (by omega)
    rw [Nat.add_zero] at h0
    unfold scanlines
    rw [h0]
    simp [rowBytes]
  · have hj : 1 + (x * 3 + c) < img.width * 3 + 1 := by omega
    have h1 := flatMap_range_getElem (rowBytes img) (img.width * 3 + 1)
      (rowBytes_length img) img.height y (1 + (x * 3 + c)) hy hj
    have hidx : y * (img.width * 3 + 1) + 1 + 3 * x + c
        = y * (img.width * 3 + 1) + (1 + (x * 3 + c)) := by omega
    unfold scanlines
    rw [hidx, h1]
    unfold rowBytes
    rw [show 1 + (x * 3 + c) = (x * 3 + c) + 1 from by omega, List.getElem?_cons_succ]
    have h2 := flatMap_range_getElem
      (fun x2 => [img.read x2 y 0, img.read x2 y 1, img.read x2 y 2]) 3
      (fun _ => rfl) img.width x c hx hc
    rw [h2]
    interval_cases c <;> rfl

/-- C8 (witness): the scanline-layout theorem applied to the concrete 1-by-1
image at row 0, column 0, channel 0. -/
theorem C8_witness :
    0 < img11.height ∧ 0 < img11.width ∧ (0 : Nat) < 3
    ∧ ((scanlines img11).length = img11.height * (img11.width * 3 + 1)
      ∧ (scanlines img11)[0 * (img11.width * 3 + 1)]? = some 0x00
      ∧ (scanlines img11)[0 * (img11.width * 3 + 1) + 1 + 3 * 0 + 0]?
          = some (img11.read 0 0 0)) :=
  ⟨by decide, by decide, by decide,
    C8_scanline_layout img11 0 0 0 (by decide) (by decide) (by decide)⟩

/-- C9: if width or height exceeds 65535, the assert at the top of main fails
before the Image pixel buffer is allocated, so the run aborts and no PNG bytes
are produced. -/
theorem C9_dimension_overflow (w h : Nat) (hov : 65535 < w ∨ 65535 < h) :
    main_run w h = none := by
  unfold main_run
  rw [if_neg (by omega)]

/-- C9 (witness): the dimension-overflow theorem applied to width 65536. -/
theorem C9_witness :
    (65535 < 65536 ∨ 65535 < (1 : Nat)) ∧ main_run 65536 1 = none :=
  ⟨Or.inl (by decide), C9_dimension_overflow 65536 1 (Or.inl (by decide))⟩

/-- C10: reading a pixel channel immediately after setting it returns the byte
just written, and setting one in-bounds (column, row, channel) triple leaves
every other in-bounds triple unchanged — the flat index mapping
row * width * 3 + column * 3 + channel is injective on in-bounds triples. -/
theorem C10_pixel_access (img : Image) (c r ch c2 r2 ch2 v : Nat)
    (hc : c < img.width) (hr : r < img.height) (hch : ch < 3)
    (hc2 : c2 < img.width) (hr2 : r2 < img.height) (hch2 : ch2 < 3)
    (hv : v < 256) (hne : (c2, r2, ch2) ≠ (c, r, ch)) :
    (img.write c r ch v).read c r ch = v
    ∧ (img.write c r ch v).read c2 r2 ch2 = img.read c2 r2 ch2 := by
  constructor
  · show Function.update img.image (img.idx c r ch) (v % 256) (img.idx c r ch) = v
    rw [Function.update_same, Nat.mod_eq_of_lt hv]
  · show Function.update img.image (img.idx c r ch) (v % 256) (img.idx c2 r2 ch2)
      = img.image (img.idx c2 r2 ch2)
    refine Function.update_noteq ?_ _ _
    intro heq
    have hinj := idx_inj img c2 r2 ch2 c r ch hc2 hch2 hc hch heq
    exact hne (by rw [hinj.1, hinj.2.1, hinj.2.2])

/-- C10 (witness): the pixel-access theorem applied to the concrete 1-by-1
image at channel 0 versus channel 1. -/
theorem C10_witness :
    0 < img11.width ∧ 0 < img11.height ∧ (0 : Nat) < 3 ∧ (1 : Nat) < 3 ∧ (7 : Nat) < 256
    ∧ ((0 : Nat), (0 : Nat), (1 : Nat)) ≠ ((0 : Nat), (0 : Nat), (0 : Nat))
    ∧ ((img11.write 0 0 0 7).read 0 0 0 = 7
      ∧ (img11.write 0 0 0 7).read 0 0 1 = img11.read 0 0 1) :=
  ⟨by decide, by decide, by decide, by decide, by decide, by decide,
    C10_pixel_access img11 0 0 0 0 0 1 7 (by decide) (by decide) (by decide)
      (by decide) (by decide) (by decide) (by decide) (by decide)⟩

end Gpng
